import Mathlib

/-!
Verification of the tt-smi backend (`src/tt_smi/tt_smi_backend.py`).

The raw SMBUS telemetry dictionary maps register names to `hex(value)`
strings, or `None` when a register is unavailable.  Every decoder first
recovers the integer with `int(s, 16)`, which inverts `hex`, so the
dictionary is modelled as a record of `Option ℕ` fields (one per register
used by the decoders); `none` models an absent (`None`) entry.
A Python expression that raises (`int(None, 16)`, `sys.exit`) is modelled
by an `Option`/`Except` failure result.  Python `/` on these integer
inputs is exact decimal division; it is modelled in `ℚ`.  The decoders
format the numbers into strings for display as a last step; the model
stops at the numeric stage that those format strings print.
-/

/-- Chip family of a device: `PciChip.as_gs()` / `as_wh()` dispatch in the
source; `unknown` is a chip for which both probes are false. -/
inductive Chip
  | gs
  | wh
  | unknown
deriving DecidableEq

/-- Model of `device.as_gs()` (truthiness of the returned handle). -/
def Chip.as_gs : Chip → Bool
  | .gs => true
  | _ => false

/-- Model of `device.as_wh()`. -/
def Chip.as_wh : Chip → Bool
  | .wh => true
  | _ => false

/-- The SMBUS telemetry registers read by the decoders
(`smbus_telem_info[board_num]["SMBUS_TX_*"]`); `none` is an absent entry. -/
structure Telem where
  tdc : Option ℕ := none
  vcore : Option ℕ := none
  tdp : Option ℕ := none
  asic_temperature : Option ℕ := none
  aiclk : Option ℕ := none
  vdd_limits : Option ℕ := none
  thm_limits : Option ℕ := none
  ddr_status : Option ℕ := none
  ddr_speed : Option ℕ := none
  board_id_low : Option ℕ := none
  board_id_high : Option ℕ := none
deriving DecidableEq

/-- Numeric stage of the `chip_telemetry` dict built by
`TTSMIBackend.get_chip_telemetry` (the values placed into the format
strings `f"{voltage:4.2f}"` etc.). -/
structure ChipTelemetry where
  voltage : ℚ
  current : ℕ
  power : ℕ
  aiclk : ℕ
  asic_temperature : ℚ
deriving DecidableEq

/-- Model of `TTSMIBackend.get_chip_telemetry`.  The source evaluates, in
order: `current` from TDC, `voltage` from VCORE (with the literal `10000`
substituted when VCORE is `None`), `power` from TDP, `asic_temperature`
from ASIC_TEMPERATURE, `aiclk` from AICLK.  Every register except VCORE is
read with an unguarded `int(..., 16)`, so its absence raises and the whole
decode produces no dict: that is the `none` result. -/
def get_chip_telemetry (t : Telem) : Option ChipTelemetry :=
  match t.tdc with
  | none => none
  | some tdc =>
    let current := tdc &&& 0xFFFF
    let voltage : ℚ :=
      match t.vcore with
      | some v => (v : ℚ) / 1000
      | none => 10000
    match t.tdp with
    | none => none
    | some tdp =>
      let power := tdp &&& 0xFFFF
      match t.asic_temperature with
      | none => none
      | some temp =>
        let asic_temperature : ℚ := ((temp &&& 0xFFFF : ℕ) : ℚ) / 16
        match t.aiclk with
        | none => none
        | some ai =>
          some ⟨voltage, current, power, ai &&& 0xFFFF, asic_temperature⟩

/-- Numeric stage of the `chip_limits` dict built by
`TTSMIBackend.get_chip_limits` (the values placed into its format
strings; a `None` register yields a `None` field). -/
structure ChipLimits where
  vdd_min : Option ℚ
  vdd_max : Option ℚ
  tdp_limit : Option ℕ
  tdc_limit : Option ℕ
  asic_fmax : Option ℕ
  therm_trip_l1_limit : Option ℕ
  thm_limit : Option ℕ
deriving DecidableEq

/-- Model of `TTSMIBackend.get_chip_limits`: each field is guarded by an
`is not None` test on its own source register, then extracts the low or
high 16-bit half; the two `vdd` fields are additionally scaled by `/1000`
inside the format string. -/
def get_chip_limits (t : Telem) : ChipLimits where
  vdd_min := t.vdd_limits.map (fun v => ((v &&& 0xFFFF : ℕ) : ℚ) / 1000)
  vdd_max := t.vdd_limits.map (fun v => ((v >>> 16 : ℕ) : ℚ) / 1000)
  tdp_limit := t.tdp.map (fun v => v >>> 16)
  tdc_limit := t.tdc.map (fun v => v >>> 16)
  asic_fmax := t.aiclk.map (fun v => v >>> 16)
  therm_trip_l1_limit := t.thm_limits.map (fun v => v >>> 16)
  thm_limit := t.thm_limits.map (fun v => v &&& 0xFFFF)

/-- Model of `TTSMIBackend.get_dram_training_status`.  The source loops
over `num_channels` (8 on wormhole with trained code 2, 6 on grayskull
with trained code 1) but `return True` sits inside the loop body, so the
first iteration always returns: only the channel-0 nibble is inspected.
An absent DDR_STATUS register returns `False`.  For a chip of neither
family the function falls off the end, i.e. returns Python `None`,
modelled as `none`. -/
def get_dram_training_status (c : Chip) (t : Telem) : Option Bool :=
  if c.as_wh then
    some (match t.ddr_status with
      | none => false
      | some v => (v >>> (4 * 0)) &&& 0xF == 2)
  else if c.as_gs then
    some (match t.ddr_status with
      | none => false
      | some v => (v >>> (4 * 0)) &&& 0xF == 1)
  else
    none

/-- Model of `TTSMIBackend.get_dram_speed`.  On grayskull the DDR_SPEED
register value is returned as a decimal string; otherwise `DDR_STATUS >> 24`
selects one of five grade strings, any other code returning Python `None`
(the inner `none`).  An absent source register raises in `int(..., 16)`:
the outer `none`. -/
def get_dram_speed (c : Chip) (t : Telem) : Option (Option String) :=
  if c.as_gs then
    match t.ddr_speed with
    | none => none
    | some v => some (some (Nat.repr v))
  else
    match t.ddr_status with
    | none => none
    | some v =>
      let dram_speed_raw := v >>> 24
      some (if dram_speed_raw = 0 then some "16G"
        else if dram_speed_raw = 1 then some "14G"
        else if dram_speed_raw = 2 then some "12G"
        else if dram_speed_raw = 3 then some "10G"
        else if dram_speed_raw = 4 then some "8G"
        else none)

/-- Model of Python `hex(v)` for `v : ℕ`: the prefix `0x` followed by the
lowercase hex digits (`Nat.toDigits 16` produces exactly those). -/
def pyHex (v : ℕ) : List Char :=
  '0' :: 'x' :: Nat.toDigits 16 v

/-- Model of Python `str.replace` (all non-overlapping occurrences,
scanned left to right) on character lists. -/
def strReplace (pat rep : List Char) : List Char → List Char
  | [] => []
  | c :: cs =>
    if h : pat ≠ [] ∧ pat.isPrefixOf (c :: cs) then
      rep ++ strReplace pat rep ((c :: cs).drop pat.length)
    else
      c :: strReplace pat rep cs
termination_by l => l.length
decreasing_by
  · simp only [List.length_drop, List.length_cons]
    have hp : pat.length ≠ 0 := fun e => h.1 (List.length_eq_zero.mp e)
    omega
  · simp only [List.length_cons]
    omega

/-- Model of `TTSMIBackend.get_board_id`: `"N/A"` when either half is
absent; otherwise the low half has `"0x"` removed, the high half has the
character `"x"` removed, and the result is high-then-low concatenation. -/
def get_board_id (t : Telem) : String :=
  match t.board_id_low, t.board_id_high with
  | some v0, some v1 =>
    String.mk (strReplace ['x'] [] (pyHex v1) ++ strReplace ['0', 'x'] [] (pyHex v0))
  | _, _ => "N/A"

/-- Model of the classification loop of `pci_board_reset`: wormhole
devices have their pci index collected for the batched link reset,
grayskull devices are collected for per-device tensix reset, and any
other chip prints an error and calls `sys.exit(1)`, abandoning the
remaining boards (the `Except.error` result). -/
def pci_board_reset_classify : List (ℕ × Chip) → Except Unit (List ℕ × List ℕ)
  | [] => Except.ok ([], [])
  | (idx, c) :: rest =>
    if c.as_wh then
      match pci_board_reset_classify rest with
      | Except.ok (whs, gss) => Except.ok (idx :: whs, gss)
      | Except.error e => Except.error e
    else if c.as_gs then
      match pci_board_reset_classify rest with
      | Except.ok (whs, gss) => Except.ok (whs, idx :: gss)
      | Except.error e => Except.error e
    else
      Except.error ()

/-- One entry of the `wh_mobo_reset` list in a reset request: the board
group name and (optionally) the host pci indices its members control. -/
structure MoboEntry where
  mobo : String
  nb_host_pci_idx : Option (List ℕ) := none
deriving DecidableEq

/-- Model of Python `pat in s` (substring test) on character lists. -/
def containsSub (pat : List Char) : List Char → Bool
  | [] => pat.isEmpty
  | c :: cs => pat.isPrefixOf (c :: cs) || containsSub pat cs

/-- The reset-request json as far as `mobo_reset_from_json` reads or
writes it.  `wh_link_reset` holds the `pci_index` entry of the
`wh_link_reset` sub-dict; because the source rebuilds that entry through
Python `set` operations (whose iteration order is unspecified) the field
is modelled as the set of indices.  `none` models the key being absent
(the source's `KeyError` path). -/
structure ResetJson where
  wh_mobo_reset : Option (List MoboEntry) := none
  wh_link_reset : Option (Finset ℕ) := none
  gs_tensix_reset : Option (List ℕ) := none
  re_init_devices : Option Bool := none
deriving DecidableEq

/-- The `mobo_dict_list` filter of `mobo_reset_from_json`: keep only the
entries whose name does not contain the `"MOBO NAME"` placeholder. -/
def named_mobos (l : List MoboEntry) : List MoboEntry :=
  l.filter (fun m => ! containsSub ("MOBO NAME".data) m.mobo.data)

/-- One iteration of the removal loop of `mobo_reset_from_json`:
`list(set(acc) - set(entry["nb_host_pci_idx"]))`, executed only when the
entry has a non-empty index list. -/
def mobo_reset_step (acc : Finset ℕ) (m : MoboEntry) : Finset ℕ :=
  match m.nb_host_pci_idx with
  | some l => if l = [] then acc else acc \ l.toFinset
  | none => acc

/-- Model of `mobo_reset_from_json`.  The external `warm_reset_mobo`
driver call does not modify the json and is omitted.  When there is at
least one named mobo, the wormhole link-reset index set is rewritten with
the members' host indices removed; if the `wh_link_reset`/`pci_index`
lookup raises, the exception is caught and the json returned unchanged. -/
def mobo_reset_from_json (j : ResetJson) : ResetJson :=
  match j.wh_mobo_reset with
  | none => j
  | some mobos =>
    let mobo_dict_list := named_mobos mobos
    if mobo_dict_list = [] then j
    else
      match j.wh_link_reset with
      | none => j
      | some s =>
        { j with wh_link_reset := some (mobo_dict_list.foldl mobo_reset_step s) }

/-- The host indices controlled by one mobo entry (empty when the entry
carries no non-empty index list); used to state what the removal loop
subtracts. -/
def entry_idx_set (m : MoboEntry) : Finset ℕ :=
  match m.nb_host_pci_idx with
  | some l => if l = [] then ∅ else l.toFinset
  | none => ∅

/-- Union of the host indices controlled by a list of mobo entries. -/
def mobo_idx_union (l : List MoboEntry) : Finset ℕ :=
  l.foldr (fun m acc => entry_idx_set m ∪ acc) ∅

/-! Helper lemmas about the bit-level extractions. -/

theorem and_mask16 (n : ℕ) : n &&& 0xFFFF = n % 2 ^ 16 := by
  simpa using Nat.and_pow_two_sub_one_eq_mod n 16

theorem and_mask4 (n : ℕ) : n &&& 0xF = n % 16 := by
  simpa using Nat.and_pow_two_sub_one_eq_mod n 4

theorem low_half (lo hi : ℕ) (h : lo < 2 ^ 16) : (lo + 2 ^ 16 * hi) &&& 0xFFFF = lo := by
  rw [and_mask16, Nat.add_mul_mod_self_left, Nat.mod_eq_of_lt h]

theorem high_half (lo hi : ℕ) (h : lo < 2 ^ 16) : (lo + 2 ^ 16 * hi) >>> 16 = hi := by
  rw [Nat.shiftRight_eq_div_pow, Nat.add_mul_div_left _ _ (by positivity), Nat.div_eq_of_lt h]
  omega

/-! Helper lemmas about the string manipulations of `get_board_id`. -/

theorem strReplace_nil (pat rep : List Char) : strReplace pat rep [] = [] := by
  rw [strReplace]

theorem strReplace_pos (pat rep : List Char) (c : Char) (cs : List Char)
    (h1 : pat ≠ []) (h2 : pat.isPrefixOf (c :: cs)) :
    strReplace pat rep (c :: cs) = rep ++ strReplace pat rep ((c :: cs).drop pat.length) := by
  rw [strReplace, dif_pos ⟨h1, h2⟩]

theorem strReplace_neg (pat rep : List Char) (c : Char) (cs : List Char)
    (h : ¬(pat ≠ [] ∧ pat.isPrefixOf (c :: cs))) :
    strReplace pat rep (c :: cs) = c :: strReplace pat rep cs := by
  rw [strReplace, dif_neg h]

theorem strReplace_x_of_not_mem (rep l) (h : 'x' ∉ l) : strReplace ['x'] rep l = l := by
  induction l with
  | nil => exact strReplace_nil _ _
  | cons c cs ih =>
    have hc : c ≠ 'x' := fun e => h (e ▸ List.mem_cons_self c cs)
    rw [strReplace_neg]
    · rw [ih (fun m => h (List.mem_cons_of_mem _ m))]
    · rintro ⟨-, hp⟩
      simp only [List.isPrefixOf, Bool.and_eq_true, beq_iff_eq] at hp
      exact hc hp.1.symm

theorem strReplace_0x_of_not_mem (rep l) (h : 'x' ∉ l) : strReplace ['0', 'x'] rep l = l := by
  induction l with
  | nil => exact strReplace_nil _ _
  | cons c cs ih =>
    rw [strReplace_neg]
    · rw [ih (fun m => h (List.mem_cons_of_mem _ m))]
    · rintro ⟨-, hp⟩
      cases cs with
      | nil => simp [List.isPrefixOf] at hp
      | cons d ds =>
        simp only [List.isPrefixOf, Bool.and_eq_true, beq_iff_eq] at hp
        refine h (List.mem_cons_of_mem _ ?_)
        rw [hp.2.1]
        exact List.mem_cons_self d ds

theorem strReplace_strip_0x (d : List Char) (h : 'x' ∉ d) :
    strReplace ['0', 'x'] [] ('0' :: 'x' :: d) = d := by
  rw [strReplace_pos _ _ _ _ (by simp) (by simp [List.isPrefixOf])]
  simpa using strReplace_0x_of_not_mem [] d h

theorem strReplace_strip_x (d : List Char) (h : 'x' ∉ d) :
    strReplace ['x'] [] ('0' :: 'x' :: d) = '0' :: d := by
  rw [strReplace_neg _ _ _ _ (by simp [List.isPrefixOf])]
  rw [strReplace_pos _ _ _ _ (by simp) (by simp [List.isPrefixOf])]
  simpa using strReplace_x_of_not_mem [] d h

theorem digitChar_ne_x (n : ℕ) : Nat.digitChar n ≠ 'x' := by
  rcases Nat.lt_or_ge n 16 with h | h
  · interval_cases n <;> decide
  · have h16 : Nat.digitChar n = '*' := by
      unfold Nat.digitChar
      repeat rw [if_neg (by omega)]
    rw [h16]
    decide

theorem toDigitsCore_ne_x (fuel n : ℕ) (ds : List Char) (h : 'x' ∉ ds) :
    'x' ∉ Nat.toDigitsCore 16 fuel n ds := by
  induction fuel generalizing n ds with
  | zero => exact h
  | succ fuel ih =>
    rw [Nat.toDigitsCore]
    have hd : 'x' ∉ Nat.digitChar (n % 16) :: ds := by
      intro hm
      rcases List.mem_cons.mp hm with hm | hm
      · exact digitChar_ne_x _ hm.symm
      · exact h hm
    split
    · exact hd
    · exact ih _ _ hd

theorem toDigits_ne_x (v : ℕ) : 'x' ∉ Nat.toDigits 16 v :=
  toDigitsCore_ne_x _ _ _ (by simp)

/-! Helper lemmas about the reset-request parsing. -/

theorem mobo_reset_step_eq (acc : Finset ℕ) (m : MoboEntry) :
    mobo_reset_step acc m = acc \ entry_idx_set m := by
  unfold mobo_reset_step entry_idx_set
  cases m.nb_host_pci_idx with
  | none => simp
  | some l =>
    by_cases hl : l = [] <;> simp [hl]

theorem sdiff_union_of_sdiff_sdiff (s a b : Finset ℕ) : (s \ a) \ b = s \ (a ∪ b) := by
  ext x
  simp only [Finset.mem_sdiff, Finset.mem_union]
  tauto

theorem mobo_idx_union_cons (m : MoboEntry) (L : List MoboEntry) :
    mobo_idx_union (m :: L) = entry_idx_set m ∪ mobo_idx_union L := rfl

theorem foldl_mobo_reset_step (L : List MoboEntry) (s : Finset ℕ) :
    L.foldl mobo_reset_step s = s \ mobo_idx_union L := by
  induction L generalizing s with
  | nil => simp [mobo_idx_union]
  | cons m L ih =>
    rw [List.foldl_cons, mobo_reset_step_eq, ih, sdiff_union_of_sdiff_sdiff,
      mobo_idx_union_cons]

/-- C2: when the request has a per-device link-reset set and at least one
board group with a valid (non-placeholder) name, the plan's per-device set
is the exact set difference of the original set and the union of the named
groups' member host indices; indices outside that union survive. -/
theorem mobo_reset_conflict_resolution (j : ResetJson) (mobos : List MoboEntry) (s : Finset ℕ)
    (hm : j.wh_mobo_reset = some mobos)
    (hn : named_mobos mobos ≠ [])
    (hl : j.wh_link_reset = some s) :
    (mobo_reset_from_json j).wh_link_reset =
      some (s \ mobo_idx_union (named_mobos mobos)) ∧
    ∀ x ∈ s, x ∉ mobo_idx_union (named_mobos mobos) →
      ∀ r : Finset ℕ, (mobo_reset_from_json j).wh_link_reset = some r → x ∈ r := by
  have key : (mobo_reset_from_json j).wh_link_reset =
      some (s \ mobo_idx_union (named_mobos mobos)) := by
    simp only [mobo_reset_from_json, hm, hl]
    rw [if_neg hn]
    simp [foldl_mobo_reset_step]
  refine ⟨key, fun x hx hu r hr => ?_⟩
  rw [key, Option.some_inj] at hr
  rw [← hr]
  exact Finset.mem_sdiff.mpr ⟨hx, hu⟩

/-- Concrete witness for `mobo_reset_conflict_resolution`: one named mobo
controlling host indices 0 and 1, link-reset set containing 0, 1, 2. -/
def jC : ResetJson :=
  { wh_mobo_reset := some [{ mobo := "mobo1", nb_host_pci_idx := some [0, 1] }],
    wh_link_reset := some {0, 1, 2} }

theorem mobo_reset_conflict_resolution_witness :
    (mobo_reset_from_json jC).wh_link_reset = some ({2} : Finset ℕ) := by
  have h := (mobo_reset_conflict_resolution jC _ _ rfl (by decide) rfl).1
  rw [h]
  decide

/-- C3: the reset-request parser is idempotent — applying
`mobo_reset_from_json` to its own output returns that output unchanged. -/
theorem mobo_reset_idempotent (j : ResetJson) :
    mobo_reset_from_json (mobo_reset_from_json j) = mobo_reset_from_json j := by
  obtain ⟨m, l, g, r⟩ := j
  cases m with
  | none => rfl
  | some mobos =>
    by_cases hn : named_mobos mobos = []
    · simp [mobo_reset_from_json, hn]
    · cases l with
      | none => simp [mobo_reset_from_json, hn]
      | some s =>
        simp only [mobo_reset_from_json, if_neg hn]
        simp only [foldl_mobo_reset_step, sdiff_union_of_sdiff_sdiff, Finset.union_self]

/-! Concrete telemetry inputs used by the witnesses and counterexamples. -/

def tmAllNone : Telem := {}

def tmVCAbsent : Telem :=
  { tdc := some 0, tdp := some 0, asic_temperature := some 0, aiclk := some 0 }

def tmVoltage : Telem :=
  { tdc := some 0, vcore := some 850, tdp := some 0, asic_temperature := some 0,
    aiclk := some 0 }

def tmNoTDC : Telem :=
  { vcore := some 4, tdp := some 1, asic_temperature := some 2, aiclk := some 3 }

def tmTelem : Telem :=
  { tdc := some 0x1ABCD, vcore := some 850, tdp := some 0x2BEEF,
    asic_temperature := some 0x140, aiclk := some 0x30123 }

/-- C1 counterexample: with every other register present but VCORE absent,
the decoded voltage is the numeric sentinel 10000, not an unavailable
marker, contradicting the claim as stated. -/
theorem voltage_sentinel_cex :
    (get_chip_telemetry tmVCAbsent).map ChipTelemetry.voltage = some 10000 := by
  rfl

/-- C1 amended: when VCORE is present with raw value v the decoded voltage
is exactly v/1000; when VCORE is absent the decode substitutes the numeric
sentinel 10000 instead of an explicit unavailable marker. -/
theorem voltage_decode_amended (t : Telem) (c p temp a : ℕ)
    (h1 : t.tdc = some c) (h2 : t.tdp = some p)
    (h3 : t.asic_temperature = some temp) (h4 : t.aiclk = some a) :
    (∀ v, t.vcore = some v →
      (get_chip_telemetry t).map ChipTelemetry.voltage = some ((v : ℚ) / 1000)) ∧
    (t.vcore = none →
      (get_chip_telemetry t).map ChipTelemetry.voltage = some 10000) := by
  constructor
  · intro v hv
    simp [get_chip_telemetry, h1, h2, h3, h4, hv]
  · intro hv
    simp [get_chip_telemetry, h1, h2, h3, h4, hv]

theorem voltage_decode_amended_witness :
    (get_chip_telemetry tmVoltage).map ChipTelemetry.voltage = some ((850 : ℚ) / 1000) :=
  (voltage_decode_amended tmVoltage 0 0 0 0 rfl rfl rfl rfl).1 850 rfl

/-- C5 counterexample: with TDC absent (all other registers present) the
whole telemetry decode fails; no per-field unavailable marker is
produced for the other fields, contradicting the claim as stated. -/
theorem telemetry_missing_register_cex : get_chip_telemetry tmNoTDC = none := by
  rfl

/-- C5 amended: current, power and clock take the low 16 bits of their
registers with no further scaling when those registers are present, but an
absent TDC, TDP, ASIC_TEMPERATURE or AICLK register aborts the whole
telemetry decode (only VCORE absence is tolerated). -/
theorem telemetry_low16_amended (t : Telem) (c p temp a : ℕ)
    (h1 : t.tdc = some c) (h2 : t.tdp = some p)
    (h3 : t.asic_temperature = some temp) (h4 : t.aiclk = some a) :
    ((get_chip_telemetry t).map ChipTelemetry.current = some (c % 2 ^ 16) ∧
     (get_chip_telemetry t).map ChipTelemetry.power = some (p % 2 ^ 16) ∧
     (get_chip_telemetry t).map ChipTelemetry.aiclk = some (a % 2 ^ 16)) ∧
    ∀ s : Telem,
      s.tdc = none ∨ s.tdp = none ∨ s.asic_temperature = none ∨ s.aiclk = none →
      get_chip_telemetry s = none := by
  constructor
  · refine ⟨?_, ?_, ?_⟩ <;> simp [get_chip_telemetry, h1, h2, h3, h4, and_mask16]
  · rintro s hs
    cases e1 : s.tdc <;> cases e2 : s.tdp <;> cases e3 : s.asic_temperature <;>
      cases e4 : s.aiclk <;> simp_all [get_chip_telemetry]

theorem telemetry_low16_amended_witness :
    (get_chip_telemetry tmTelem).map ChipTelemetry.current = some (0x1ABCD % 2 ^ 16) :=
  ((telemetry_low16_amended tmTelem _ _ _ _ rfl rfl rfl rfl).1).1

/-- C8: when the ASIC temperature register is present (and the decode
completes), the decoded die temperature is its low 16 bits divided by 16. -/
theorem temperature_decode (t : Telem) (c p temp a : ℕ)
    (h1 : t.tdc = some c) (h2 : t.tdp = some p)
    (h3 : t.asic_temperature = some temp) (h4 : t.aiclk = some a) :
    (get_chip_telemetry t).map ChipTelemetry.asic_temperature =
      some (((temp % 2 ^ 16 : ℕ) : ℚ) / 16) := by
  simp [get_chip_telemetry, h1, h2, h3, h4, and_mask16]

theorem temperature_decode_witness :
    (get_chip_telemetry tmTelem).map ChipTelemetry.asic_temperature = some 20 := by
  have h := temperature_decode tmTelem _ _ _ _ rfl rfl rfl rfl
  rw [h]
  norm_num

/-- C4 counterexample: a chip of unrecognized family makes
`get_dram_training_status` silently return Python `None` (no
unsupported-family error), and `pci_board_reset` exits the process on such
a chip, so a wormhole board later in the list is never processed —
contradicting both halves of the claim as stated. -/
theorem unsupported_family_cex :
    get_dram_training_status Chip.unknown tmAllNone = none ∧
    pci_board_reset_classify [(0, Chip.unknown), (1, Chip.wh)] = Except.error () := by
  exact ⟨rfl, rfl⟩

/-- C4 amended: for a device of unrecognized family the DRAM-training
decode silently returns `None`, and the board-reset classification aborts
the whole run (processing no further devices) via `sys.exit(1)`. -/
theorem unsupported_family_amended (t : Telem) (idx : ℕ) (rest : List (ℕ × Chip)) :
    get_dram_training_status Chip.unknown t = none ∧
    pci_board_reset_classify ((idx, Chip.unknown) :: rest) = Except.error () := by
  exact ⟨rfl, rfl⟩

/-- C6: for each recognized family, training is reported successful iff
the 4-bit nibble at offset 0 of DDR_STATUS equals the family's trained
code (2 on wormhole, 8 channels; 1 on grayskull, 6 channels), regardless
of every other nibble; an absent DDR_STATUS register yields `False`. -/
theorem dram_training_first_channel (t : Telem) (v : ℕ) :
    (t.ddr_status = some v →
      ((get_dram_training_status Chip.wh t = some true ↔ v % 16 = 2) ∧
       (get_dram_training_status Chip.gs t = some true ↔ v % 16 = 1))) ∧
    (t.ddr_status = none →
      get_dram_training_status Chip.wh t = some false ∧
      get_dram_training_status Chip.gs t = some false) := by
  constructor
  · intro h
    constructor <;> simp [get_dram_training_status, Chip.as_wh, Chip.as_gs, h, and_mask4]
  · intro h
    constructor <;> simp [get_dram_training_status, Chip.as_wh, Chip.as_gs, h]

def tmDram : Telem := { ddr_status := some 0xFFFFFF32 }

theorem dram_training_first_channel_witness :
    get_dram_training_status Chip.wh tmDram = some true :=
  (((dram_training_first_channel tmDram 0xFFFFFF32).1 rfl).1).mpr (by norm_num)

/-- C7: every limit pair packed low-16/high-16 in one register is unpacked
independently (min/max in VDD_LIMITS, the two thermal thresholds in
THM_LIMITS, the limit in the high half of TDP/TDC/AICLK), and each limit
field is `None` exactly when its own source register is absent; the other
registers of `t` are arbitrary, so no field depends on another register. -/
theorem chip_limits_unpack (t : Telem) (lo hi : ℕ) (hlo : lo < 2 ^ 16) :
    (t.vdd_limits = some (lo + 2 ^ 16 * hi) →
      (get_chip_limits t).vdd_min = some ((lo : ℚ) / 1000) ∧
      (get_chip_limits t).vdd_max = some ((hi : ℚ) / 1000)) ∧
    (t.vdd_limits = none →
      (get_chip_limits t).vdd_min = none ∧ (get_chip_limits t).vdd_max = none) ∧
    (t.thm_limits = some (lo + 2 ^ 16 * hi) →
      (get_chip_limits t).thm_limit = some lo ∧
      (get_chip_limits t).therm_trip_l1_limit = some hi) ∧
    (t.thm_limits = none →
      (get_chip_limits t).thm_limit = none ∧
      (get_chip_limits t).therm_trip_l1_limit = none) ∧
    (t.tdp = some (lo + 2 ^ 16 * hi) → (get_chip_limits t).tdp_limit = some hi) ∧
    (t.tdp = none → (get_chip_limits t).tdp_limit = none) ∧
    (t.tdc = some (lo + 2 ^ 16 * hi) → (get_chip_limits t).tdc_limit = some hi) ∧
    (t.tdc = none → (get_chip_limits t).tdc_limit = none) ∧
    (t.aiclk = some (lo + 2 ^ 16 * hi) → (get_chip_limits t).asic_fmax = some hi) ∧
    (t.aiclk = none → (get_chip_limits t).asic_fmax = none) := by
  have hand : lo + 65536 * hi &&& 65535 = lo := by simpa using low_half lo hi hlo
  have hshift : (lo + 65536 * hi) >>> 16 = hi := by simpa using high_half lo hi hlo
  refine ⟨fun h => ?_, fun h => ?_, fun h => ?_, fun h => ?_, fun h => ?_,
    fun h => ?_, fun h => ?_, fun h => ?_, fun h => ?_, fun h => ?_⟩ <;>
    simp [get_chip_limits, h, hand, hshift]

def tmLimits : Telem :=
  { tdc := some 0x0BB80320, tdp := some 0x0BB80320, aiclk := some 0x0BB80320,
    vdd_limits := some 0x0BB80320, thm_limits := some 0x0BB80320 }

theorem chip_limits_unpack_witness :
    (get_chip_limits tmLimits).vdd_min = some ((0x320 : ℚ) / 1000) ∧
    (get_chip_limits tmLimits).vdd_max = some ((0xBB8 : ℚ) / 1000) ∧
    (get_chip_limits tmLimits).thm_limit = some 0x320 ∧
    (get_chip_limits tmLimits).therm_trip_l1_limit = some 0xBB8 := by
  have h := chip_limits_unpack tmLimits 0x320 0xBB8 (by norm_num)
  exact ⟨(h.1 (by decide)).1, (h.1 (by decide)).2,
    (h.2.2.1 (by decide)).1, (h.2.2.1 (by decide)).2⟩

/-- C9: on grayskull the DRAM speed is the DDR_SPEED register value as a
decimal string; on wormhole the code in bits 24-31 of DDR_STATUS maps
0,1,2,3,4 to the grades 16G,14G,12G,10G,8G, and any code 5 or above
yields the unknown result (Python `None`) instead of a grade. -/
theorem dram_speed_decode (t : Telem) (v : ℕ) (hv : v < 2 ^ 32) :
    (t.ddr_speed = some v → get_dram_speed Chip.gs t = some (some (Nat.repr v))) ∧
    (t.ddr_status = some v →
      v >>> 24 < 2 ^ 8 ∧
      (v >>> 24 = 0 → get_dram_speed Chip.wh t = some (some "16G")) ∧
      (v >>> 24 = 1 → get_dram_speed Chip.wh t = some (some "14G")) ∧
      (v >>> 24 = 2 → get_dram_speed Chip.wh t = some (some "12G")) ∧
      (v >>> 24 = 3 → get_dram_speed Chip.wh t = some (some "10G")) ∧
      (v >>> 24 = 4 → get_dram_speed Chip.wh t = some (some "8G")) ∧
      (5 ≤ v >>> 24 → get_dram_speed Chip.wh t = some none)) := by
  constructor
  · intro h
    simp [get_dram_speed, Chip.as_gs, h]
  · intro h
    have hb : v >>> 24 < 2 ^ 8 := by
      rw [Nat.shiftRight_eq_div_pow]
      exact Nat.div_lt_of_lt_mul (lt_of_lt_of_le hv (by norm_num))
    refine ⟨hb, fun h0 => ?_, fun h1 => ?_, fun h2 => ?_, fun h3 => ?_,
      fun h4 => ?_, fun h5 => ?_⟩
    · simp [get_dram_speed, Chip.as_gs, Chip.as_wh, h, h0]
    · simp [get_dram_speed, Chip.as_gs, Chip.as_wh, h, h1]
    · simp [get_dram_speed, Chip.as_gs, Chip.as_wh, h, h2]
    · simp [get_dram_speed, Chip.as_gs, Chip.as_wh, h, h3]
    · simp [get_dram_speed, Chip.as_gs, Chip.as_wh, h, h4]
    · have e0 : v >>> 24 ≠ 0 := by omega
      have e1 : v >>> 24 ≠ 1 := by omega
      have e2 : v >>> 24 ≠ 2 := by omega
      have e3 : v >>> 24 ≠ 3 := by omega
      have e4 : v >>> 24 ≠ 4 := by omega
      simp [get_dram_speed, Chip.as_gs, Chip.as_wh, h, e0, e1, e2, e3, e4]

def tmSpeedG : Telem := { ddr_speed := some 2133 }

def tmSpeedW : Telem := { ddr_status := some 0x05000000 }

theorem dram_speed_decode_witness :
    get_dram_speed Chip.gs tmSpeedG = some (some (Nat.repr 2133)) ∧
    get_dram_speed Chip.wh tmSpeedW = some none := by
  refine ⟨(dram_speed_decode tmSpeedG 2133 (by norm_num)).1 rfl, ?_⟩
  exact ((dram_speed_decode tmSpeedW 0x05000000 (by norm_num)).2 rfl).2.2.2.2.2.2
    (by decide)

/-- C10: when both board-id halves are present, `get_board_id` strips the
`0x` prefix from the low half but only the character `x` from the high
half, returning the high half's hex digits with a retained leading `0`
followed by the low half's hex digits; when either half is absent it
returns `"N/A"`. -/
theorem board_id_compose (t : Telem) (v0 v1 : ℕ)
    (h0 : t.board_id_low = some v0) (h1 : t.board_id_high = some v1) :
    get_board_id t = String.mk (('0' :: Nat.toDigits 16 v1) ++ Nat.toDigits 16 v0) ∧
    ∀ s : Telem, s.board_id_low = none ∨ s.board_id_high = none →
      get_board_id s = "N/A" := by
  constructor
  · simp only [get_board_id, h0, h1, pyHex]
    rw [strReplace_strip_x _ (toDigits_ne_x v1), strReplace_strip_0x _ (toDigits_ne_x v0)]
  · rintro s hs
    cases e0 : s.board_id_low <;> cases e1 : s.board_id_high <;>
      simp_all [get_board_id]

def tmBoard : Telem := { board_id_low := some 0x18011, board_id_high := some 0x361 }

theorem board_id_compose_witness :
    get_board_id tmBoard =
      String.mk (('0' :: Nat.toDigits 16 0x361) ++ Nat.toDigits 16 0x18011) :=
  (board_id_compose tmBoard _ _ rfl rfl).1
